import Mathlib

/-!
Shallow embedding of the signing-round coordination logic of
`crates/sui-core/src/signature_mpc/sign.rs` (dWallet network).

The cryptographic protocol library (`signature_mpc::twopc_mpc_protocols`)
is external to the file under verification: its functions are modelled as
fields of a `Provider` record over opaque payload types (naturals), so
every theorem below quantifies over the provider's behaviour unless a
concrete spec-modelled provider is named explicitly.

Design decisions of the embedding:
* Rust `HashMap<PartyID, V>` becomes `Finmap` (extensional finite map:
  two hash maps with the same entries are equal), `HashSet<PartyID>`
  becomes `Finset PartyID`.
* Rust panics (`unwrap` of `None`, `% 0`) are modelled as `Option.none`
  results; `Result<T>` becomes `Except TwopcError T`.
* `PartyID` is a 16-bit integer in the protocols crate; the `as PartyID`
  cast is modelled as reduction modulo 2^16.
* `&mut self` methods become functions returning the updated value
  (paired with the returned `Result` where the source returns one);
  `mem::take(self)` in `complete_round` is reflected by the returned
  round always being the emptied (`none`) round.
-/

/-- The PartyID type of the protocols crate (a 16-bit integer), modelled as a natural. -/
abbrev PartyID := Nat

/-- Opaque payload: a `PaillierModulusSizedNumber`. -/
abbrev PaillierModulusSizedNumber := Nat

/-- Opaque payload: a partial-decryption proof
(`AdditivelyHomomorphicDecryptionKeyShare::PartialDecryptionProof`). -/
abbrev PartialDecryptionProof := Nat

/-- Opaque payload: public parameters of the threshold decryption scheme. -/
abbrev DecryptionPublicParameters := Nat

/-- Opaque payload: this party's secret decryption key share. -/
abbrev SecretKeyShareSizedNumber := Nat

/-- Opaque payload: an epoch identifier. -/
abbrev EpochId := Nat

/-- Opaque payload: the output of the decentralized DKG protocol. -/
abbrev DKGDecentralizedPartyOutput := Nat

/-- Opaque payload: one precomputed presignature. -/
abbrev DecentralizedPartyPresign := Nat

/-- Opaque payload: one per-message encrypted nonce / partial signature artifact with proof. -/
abbrev PublicNonceEncryptedPartialSignatureAndProof := Nat

/-- Opaque state: a per-message threshold-decryption continuation actor. -/
abbrev SignatureThresholdDecryptionParty := Nat

/-- Opaque state: a per-message proof-verification continuation actor. -/
abbrev SignaturePartialDecryptionProofVerificationParty := Nat

/-- Opaque state: a pre-round-1 per-message actor pair component (decryption side). -/
abbrev SignDecryptionParty := Nat

/-- Opaque state: a pre-round-1 per-message actor pair component (proof side). -/
abbrev SignProofParty := Nat

/-- The hash-function selector passed to `message_digest`. -/
abbrev Hash := Nat

/-- Opaque error type of the protocols crate's `Result`. -/
abbrev TwopcError := Nat

/-- One decryption share: a pair of Paillier-modulus-sized numbers. -/
abbrev DecryptionShare := PaillierModulusSizedNumber × PaillierModulusSizedNumber

/-- The 32-byte `SignatureMPCSessionID` (`[u8; 32]`), bytes as naturals. -/
structure SignatureMPCSessionID where
  bytes : List Nat
  len_eq : bytes.length = 32

/-- Big-endian interpretation of a byte list (`u64::from_be_bytes` applied to 8 bytes). -/
def u64_from_be_bytes (l : List Nat) : Nat :=
  l.foldl (fun acc b => acc * 256 + b) 0

/-- The `as PartyID` cast: truncation to 16 bits. -/
def partyIDCast (n : Nat) : PartyID := n % 65536

/-- The number of entries of a finite map (the model of `HashMap::len`). -/
def Finmap.size {α : Type} {β : α → Type} (m : Finmap β) : Nat := m.keys.card

/-- The external cryptographic protocol library
(`signature_mpc::twopc_mpc_protocols`), as a record of the five functions
`sign.rs` calls.  Randomness (`OsRng`) is absorbed into the functions: a
`Provider` value fixes one behaviour, and theorems quantify over all of them. -/
structure Provider where
  initiate_decentralized_party_sign :
    SecretKeyShareSizedNumber → DecryptionPublicParameters → PartyID → Finset PartyID →
    DKGDecentralizedPartyOutput → List DecentralizedPartyPresign →
    List PublicNonceEncryptedPartialSignatureAndProof →
    Except TwopcError (List (SignDecryptionParty × SignProofParty))
  message_digest : List Nat → Hash → Nat
  partially_decrypt_encrypted_signature_parts_prehash :
    SignDecryptionParty → Nat → PublicNonceEncryptedPartialSignatureAndProof →
    Except TwopcError (DecryptionShare × SignatureThresholdDecryptionParty)
  prove_correct_signature_partial_decryption :
    SignProofParty →
    Except TwopcError (PartialDecryptionProof × SignaturePartialDecryptionProofVerificationParty)
  decrypt_signature_decentralized_party_sign :
    List (List Nat) → DecryptionPublicParameters →
    Finmap (fun _ : PartyID => List DecryptionShare) →
    Finmap (fun _ : PartyID => List PartialDecryptionProof) →
    List PublicNonceEncryptedPartialSignatureAndProof →
    List SignatureThresholdDecryptionParty →
    List SignaturePartialDecryptionProofVerificationParty →
    Except TwopcError (List (List Nat))

/-- The round state machine `SignRound`: either the post-initiation
`FirstRound` holding the per-message continuation actors, or the empty
(initial and post-completion) state `None`. -/
inductive SignRound where
  | firstRound
      (signature_threshold_decryption_round_parties : List SignatureThresholdDecryptionParty)
      (signature_partial_decryption_proof_verification_round_parties :
        List SignaturePartialDecryptionProofVerificationParty)
  | none
deriving DecidableEq

/-- Whether a round is in the `FirstRound` state. -/
def SignRound.isFirstRound : SignRound → Bool
  | SignRound.firstRound _ _ => true
  | SignRound.none => false

/-- The completion result: final signatures, or the empty-completion signal. -/
inductive SignRoundCompletion where
  | output (signatures_s : List (List Nat))
  | none
deriving DecidableEq

/-- The per-session accumulator `SignState`. -/
structure SignState where
  epoch : EpochId
  party_id : PartyID
  parties : Finset PartyID
  aggregator_party_id : PartyID
  tiresias_public_parameters : DecryptionPublicParameters
  messages : Option (List (List Nat))
  public_nonce_encrypted_partial_signature_and_proofs :
    Option (List PublicNonceEncryptedPartialSignatureAndProof)
  decryption_shares : Finmap (fun _ : PartyID => List DecryptionShare)
  decryption_shares_proofs : Finmap (fun _ : PartyID => List PartialDecryptionProof)
deriving DecidableEq

/-- Embedding of `SignState::new`.  The aggregator is the first 8 bytes of
the session id read big-endian, reduced modulo the party-set size, plus one,
cast to `PartyID`.  In Rust `% 0` panics, so the empty party set yields
`Option.none` (the panic model). -/
def SignState.new (tiresias_public_parameters : DecryptionPublicParameters) (epoch : EpochId)
    (party_id : PartyID) (parties : Finset PartyID) (session_id : SignatureMPCSessionID) :
    Option SignState :=
  if parties.card = 0 then
    Option.none
  else
    Option.some
      { epoch := epoch
        party_id := party_id
        parties := parties
        aggregator_party_id :=
          partyIDCast (u64_from_be_bytes (session_id.bytes.take 8) % parties.card + 1)
        tiresias_public_parameters := tiresias_public_parameters
        messages := Option.none
        public_nonce_encrypted_partial_signature_and_proofs := Option.none
        decryption_shares := ∅
        decryption_shares_proofs := ∅ }

/-- Embedding of `SignState::set`. -/
def SignState.set (s : SignState) (messages : List (List Nat))
    (public_nonce_encrypted_partial_signature_and_proofs :
      List PublicNonceEncryptedPartialSignatureAndProof) : SignState :=
  { s with
      messages := Option.some messages
      public_nonce_encrypted_partial_signature_and_proofs :=
        Option.some public_nonce_encrypted_partial_signature_and_proofs }

/-- Embedding of `SignState::insert_first_round`: inserts the sender's shares
and proofs into the two maps (overwriting any prior entry for that party id)
and returns `Ok(())` unconditionally. -/
def SignState.insert_first_round (s : SignState) (party_id : PartyID)
    (message : List DecryptionShare × List PartialDecryptionProof) :
    SignState × Except TwopcError Unit :=
  ({ s with
      decryption_shares := s.decryption_shares.insert party_id message.1
      decryption_shares_proofs := s.decryption_shares_proofs.insert party_id message.2 },
    Except.ok ())

/-- Embedding of `SignState::ready_for_complete_first_round`. -/
def SignState.ready_for_complete_first_round (s : SignState) (round : SignRound) : Bool :=
  match round with
  | SignRound.firstRound _ _ =>
      s.decryption_shares.size == s.parties.card &&
      s.decryption_shares_proofs.size == s.parties.card &&
      s.party_id == s.aggregator_party_id
  | _ => false

/-- The model of Rust's `collect::<Result<Vec<_>>>`: succeeds with the list of
all payloads when every item is `Ok`, otherwise fails with the first error. -/
def collectResults {X E : Type} : List (Except E X) → Except E (List X)
  | [] => Except.ok []
  | Except.error e :: _ => Except.error e
  | Except.ok x :: xs =>
      match collectResults xs with
      | Except.ok ys => Except.ok (x :: ys)
      | Except.error e => Except.error e

/-- The closure body of the per-message loop of `SignRound::new`: hash the
message, partially decrypt against the corresponding artifact, and prove the
decryption correct; fails when either provider call fails. -/
def signStepItem (P : Provider) (hash : Hash)
    (x : (List Nat × (SignDecryptionParty × SignProofParty)) ×
      PublicNonceEncryptedPartialSignatureAndProof) :
    Except TwopcError
      ((DecryptionShare × SignatureThresholdDecryptionParty) ×
        (PartialDecryptionProof × SignaturePartialDecryptionProofVerificationParty)) :=
  let m := P.message_digest x.1.1 hash
  match P.partially_decrypt_encrypted_signature_parts_prehash x.1.2.1 m x.2,
        P.prove_correct_signature_partial_decryption x.1.2.2 with
  | Except.ok a, Except.ok b => Except.ok (a, b)
  | Except.error e, _ => Except.error e
  | Except.ok _, Except.error e => Except.error e

/-- Embedding of `SignRound::new`: initiate the per-message actor pairs via
the provider, zip messages with actor pairs and artifacts (Rust `zip`
truncates to the shorter sequence), run the per-message loop, collect, and
unzip into the `FirstRound` actors plus the broadcast `(shares, proofs)`. -/
def SignRound.new (P : Provider)
    (tiresias_public_parameters : DecryptionPublicParameters)
    (tiresias_key_share_decryption_key_share : SecretKeyShareSizedNumber)
    (epoch : EpochId) (party_id : PartyID) (parties : Finset PartyID)
    (session_id : SignatureMPCSessionID)
    (messages : List (List Nat))
    (dkg_output : DKGDecentralizedPartyOutput)
    (public_nonce_encrypted_partial_signature_and_proofs :
      List PublicNonceEncryptedPartialSignatureAndProof)
    (presigns : List DecentralizedPartyPresign)
    (hash : Hash) :
    Except TwopcError (SignRound × (List DecryptionShare × List PartialDecryptionProof)) :=
  match P.initiate_decentralized_party_sign tiresias_key_share_decryption_key_share
      tiresias_public_parameters party_id parties dkg_output presigns
      public_nonce_encrypted_partial_signature_and_proofs with
  | Except.error e => Except.error e
  | Except.ok sign_mpc_parties_per_message =>
    match collectResults
        (((messages.zip sign_mpc_parties_per_message).zip
            public_nonce_encrypted_partial_signature_and_proofs).map (signStepItem P hash)) with
    | Except.error e => Except.error e
    | Except.ok results =>
      Except.ok
        (SignRound.firstRound (results.map (fun r => r.1.2)) (results.map (fun r => r.2.2)),
          (results.map (fun r => r.1.1), results.map (fun r => r.2.1)))

/-- Embedding of `SignRound::complete_round`.  `mem::take(self)` empties the
round first, so the first component of the result (the new round) is always
`SignRound.none`.  In the `FirstRound` branch the source `unwrap`s
`state.messages` and the artifact batch: an unset option is a panic, modelled
by an `Option.none` second component. -/
def SignRound.complete_round (P : Provider) (r : SignRound) (state : SignState) :
    SignRound × Option (Except TwopcError SignRoundCompletion) :=
  match r with
  | SignRound.firstRound signature_threshold_decryption_round_parties
      signature_partial_decryption_proof_verification_round_parties =>
      match state.messages, state.public_nonce_encrypted_partial_signature_and_proofs with
      | Option.some msgs, Option.some pneps =>
          (SignRound.none,
            Option.some
              ((P.decrypt_signature_decentralized_party_sign msgs
                  state.tiresias_public_parameters state.decryption_shares
                  state.decryption_shares_proofs pneps
                  signature_threshold_decryption_round_parties
                  signature_partial_decryption_proof_verification_round_parties).map
                SignRoundCompletion.output))
      | _, _ => (SignRound.none, Option.none)
  | SignRound.none => (SignRound.none, Option.some (Except.ok SignRoundCompletion.none))

/-! ## Shared concrete values -/

/-- The all-zero 32-byte session identifier. -/
def sid0 : SignatureMPCSessionID := ⟨List.replicate 32 0, rfl⟩

/-- The state `SignState::new(0, 0, 1, {1, 2}, sid0)` produces (aggregator 1,
the local party). -/
def stateA : SignState :=
  { epoch := 0
    party_id := 1
    parties := {1, 2}
    aggregator_party_id := 1
    tiresias_public_parameters := 0
    messages := Option.none
    public_nonce_encrypted_partial_signature_and_proofs := Option.none
    decryption_shares := ∅
    decryption_shares_proofs := ∅ }

/-- The state `SignState::new(0, 0, 5, {5, 6}, sid0)` produces (a different
party set of the same size; the aggregator id is again 1). -/
def stateB : SignState :=
  { epoch := 0
    party_id := 5
    parties := {5, 6}
    aggregator_party_id := 1
    tiresias_public_parameters := 0
    messages := Option.none
    public_nonce_encrypted_partial_signature_and_proofs := Option.none
    decryption_shares := ∅
    decryption_shares_proofs := ∅ }

/-! ## Helper lemmas -/

/-- Characterization of a successful `SignState::new`: the resulting record and
the positivity of the party-set size. -/
theorem SignState.new_eq {tpp : DecryptionPublicParameters} {e : EpochId} {pid : PartyID}
    {parties : Finset PartyID} {sid : SignatureMPCSessionID} {s : SignState}
    (h : SignState.new tpp e pid parties sid = Option.some s) :
    s = { epoch := e
          party_id := pid
          parties := parties
          aggregator_party_id :=
            partyIDCast (u64_from_be_bytes (sid.bytes.take 8) % parties.card + 1)
          tiresias_public_parameters := tpp
          messages := Option.none
          public_nonce_encrypted_partial_signature_and_proofs := Option.none
          decryption_shares := ∅
          decryption_shares_proofs := ∅ } ∧
    0 < parties.card := by
  unfold SignState.new at h
  split at h
  · simp at h
  · exact ⟨(Option.some_inj.mp h).symm, Nat.pos_of_ne_zero (by assumption)⟩

/-! ## C5 -/

/-- C5: calling `complete_round` while the round is in the `None` state
returns the no-op completion signal `SignRoundCompletion::None` as a success
(`Ok`), never as an error. -/
theorem complete_round_none_is_noop (P : Provider) (st : SignState) :
    SignRound.complete_round P SignRound.none st =
      (SignRound.none, Option.some (Except.ok SignRoundCompletion.none)) := rfl

/-! ## C1 -/

/-- C1: every call to `complete_round` empties the round state (`mem::take`)
regardless of outcome — the returned round is always the `None` variant — so a
second completion call observes `None` and returns the empty-completion
signal `Ok(SignRoundCompletion::None)`. -/
theorem complete_round_consumes_round (P P2 : Provider) (r : SignRound) (st st2 : SignState) :
    (SignRound.complete_round P r st).1 = SignRound.none ∧
    SignRound.complete_round P2 (SignRound.complete_round P r st).1 st2 =
      (SignRound.none, Option.some (Except.ok SignRoundCompletion.none)) := by
  have h1 : (SignRound.complete_round P r st).1 = SignRound.none := by
    cases r with
    | firstRound a b =>
        cases hm : st.messages <;>
          cases hp : st.public_nonce_encrypted_partial_signature_and_proofs <;>
            simp [SignRound.complete_round, hm, hp]
    | none => rfl
  refine ⟨h1, ?_⟩
  rw [h1]
  rfl

/-! ## C2 -/

/-- C2: `ready_for_complete_first_round` is `true` iff the round is in the
`FirstRound` state, the number of collected decryption shares equals the
party-set size, the number of collected proofs equals the party-set size, and
the local `party_id` equals `aggregator_party_id` (hence in particular `false`
for a non-aggregator even with all contributions present). -/
theorem ready_for_complete_first_round_iff (s : SignState) (round : SignRound) :
    s.ready_for_complete_first_round round = true ↔
      (round.isFirstRound = true ∧
        s.decryption_shares.size = s.parties.card ∧
        s.decryption_shares_proofs.size = s.parties.card ∧
        s.party_id = s.aggregator_party_id) := by
  cases round <;>
    simp [SignState.ready_for_complete_first_round, SignRound.isFirstRound, and_assoc]

/-! ## C10 -/

/-- C10: `SignState::new` is total exactly on non-empty party sets: the
construction panics (modelled `Option.none`) iff the party set is empty, the
`% 0` of the aggregator computation being the panic site. -/
theorem new_none_iff_empty_parties (tpp : DecryptionPublicParameters) (epoch : EpochId)
    (party_id : PartyID) (parties : Finset PartyID) (sid : SignatureMPCSessionID) :
    SignState.new tpp epoch party_id parties sid = Option.none ↔ parties.card = 0 := by
  unfold SignState.new
  split <;> simp_all

/-! ## C3 -/

/-- C3 counterexample: with the all-zero session identifier and the party set
`{2, 3}` (size 2), `SignState::new` computes aggregator id `(0 % 2) + 1 = 1`,
which is not a member of the party set — refuting the claim that the
aggregator id is always a member of the party set. -/
theorem aggregator_not_member_cex :
    (SignState.new 0 0 2 ({2, 3} : Finset PartyID) sid0).map SignState.aggregator_party_id =
      Option.some 1 ∧
    decide ((1 : PartyID) ∈ ({2, 3} : Finset PartyID)) = false := by
  exact ⟨by decide, by decide⟩

/-- C3 amended: for every party set of size `N` with `1 ≤ N ≤ 65535`,
`SignState::new` computes the aggregator id as the first 8 bytes of the
session identifier read big-endian, reduced modulo `N`, plus one; the value is
identical for every party given the same session identifier and party-set
size, and lies in `{1, ..., N}` — hence it is a member of the party set when
the party set is exactly `{1, ..., N}`, though not of an arbitrary party
set. -/
theorem aggregator_formula (tpp tpp2 : DecryptionPublicParameters) (e e2 : EpochId)
    (pid pid2 : PartyID) (parties parties2 : Finset PartyID) (sid : SignatureMPCSessionID)
    (s s2 : SignState)
    (hcard : parties.card ≤ 65535)
    (h : SignState.new tpp e pid parties sid = Option.some s)
    (h2 : SignState.new tpp2 e2 pid2 parties2 sid = Option.some s2)
    (hsz : parties2.card = parties.card) :
    s.aggregator_party_id = u64_from_be_bytes (sid.bytes.take 8) % parties.card + 1 ∧
    s2.aggregator_party_id = s.aggregator_party_id ∧
    1 ≤ s.aggregator_party_id ∧ s.aggregator_party_id ≤ parties.card ∧
    (parties = Finset.Icc 1 parties.card → s.aggregator_party_id ∈ parties) := by
  obtain ⟨hs, hpos⟩ := SignState.new_eq h
  obtain ⟨hs2, _⟩ := SignState.new_eq h2
  have hmod : u64_from_be_bytes (sid.bytes.take 8) % parties.card < parties.card :=
    Nat.mod_lt _ hpos
  have hlt : u64_from_be_bytes (sid.bytes.take 8) % parties.card + 1 < 65536 := by omega
  have hcast : partyIDCast (u64_from_be_bytes (sid.bytes.take 8) % parties.card + 1) =
      u64_from_be_bytes (sid.bytes.take 8) % parties.card + 1 := by
    unfold partyIDCast
    exact Nat.mod_eq_of_lt hlt
  have hagg : s.aggregator_party_id =
      u64_from_be_bytes (sid.bytes.take 8) % parties.card + 1 := by
    rw [hs]
    exact hcast
  refine ⟨hagg, ?_, ?_, ?_, ?_⟩
  · rw [hs2, hs]
    simp [hsz]
  · rw [hagg]
    exact Nat.succ_le_succ (Nat.zero_le _)
  · rw [hagg]
    exact Nat.succ_le_of_lt hmod
  · intro hIcc
    rw [hIcc, Finset.mem_Icc, hagg]
    exact ⟨Nat.succ_le_succ (Nat.zero_le _), Nat.succ_le_of_lt hmod⟩

/-- C3 witness: the amended statement evaluated for the party sets `{1, 2}`
and `{5, 6}` with the all-zero session identifier. -/
theorem aggregator_formula_witness :
    stateA.aggregator_party_id =
      u64_from_be_bytes (sid0.bytes.take 8) % ({1, 2} : Finset PartyID).card + 1 ∧
    stateB.aggregator_party_id = stateA.aggregator_party_id ∧
    1 ≤ stateA.aggregator_party_id ∧
    stateA.aggregator_party_id ≤ ({1, 2} : Finset PartyID).card ∧
    (({1, 2} : Finset PartyID) = Finset.Icc 1 ({1, 2} : Finset PartyID).card →
      stateA.aggregator_party_id ∈ ({1, 2} : Finset PartyID)) :=
  aggregator_formula 0 0 0 0 1 5 {1, 2} {5, 6} sid0 stateA stateB (by decide) (by decide)
    (by decide) (by decide)

/-! ## C7 -/

/-- Keys of a finite map after an insertion. -/
theorem Finmap.keys_insert {α : Type} [DecidableEq α] {β : α → Type} (m : Finmap β)
    (a : α) (b : β a) : (m.insert a b).keys = Insert.insert a m.keys := by
  ext x
  simp [Finmap.mem_keys, Finmap.mem_insert, Finset.mem_insert]

/-- The states reachable through the `SignState` API: a `new` construction
followed by any sequence of `set` and `insert_first_round` calls
(`ready_for_complete_first_round` is read-only and returns no state). -/
inductive SignState.Reachable : SignState → Prop
  | new (tpp : DecryptionPublicParameters) (e : EpochId) (pid : PartyID)
      (parties : Finset PartyID) (sid : SignatureMPCSessionID) (s : SignState)
      (h : SignState.new tpp e pid parties sid = Option.some s) : SignState.Reachable s
  | set (s : SignState) (msgs : List (List Nat))
      (pneps : List PublicNonceEncryptedPartialSignatureAndProof)
      (h : SignState.Reachable s) : SignState.Reachable (s.set msgs pneps)
  | insert (s : SignState) (pid : PartyID)
      (msg : List DecryptionShare × List PartialDecryptionProof)
      (h : SignState.Reachable s) : SignState.Reachable (s.insert_first_round pid msg).1

/-- In every reachable state the two contribution maps have the same key set,
since a share and its proof are always inserted together. -/
theorem SignState.reachable_keys_eq (s : SignState) (h : SignState.Reachable s) :
    s.decryption_shares.keys = s.decryption_shares_proofs.keys := by
  induction h with
  | new tpp e pid parties sid s hnew =>
      obtain ⟨hs, -⟩ := SignState.new_eq hnew
      rw [hs]
      rfl
  | set s msgs pneps h ih => exact ih
  | insert s pid msg h ih =>
      simp [SignState.insert_first_round, Finmap.keys_insert, ih]

/-- C7: the invariant `decryption_shares.len() == decryption_shares_proofs.len()`
holds in the initial state produced by `new` and is preserved by every state
operation (`set`, `insert_first_round`; `ready_for_complete_first_round` does
not mutate): it holds in every reachable state. -/
theorem reachable_shares_proofs_len_eq (s : SignState) (h : SignState.Reachable s) :
    s.decryption_shares.size = s.decryption_shares_proofs.size := by
  unfold Finmap.size
  rw [SignState.reachable_keys_eq s h]

/-- C7 witness: the invariant evaluated on the concrete reachable state
`new` then `set` then an insert for party 3. -/
theorem reachable_shares_proofs_len_eq_witness :
    ((stateA.set [] []).insert_first_round 3 ([(0, 0)], [0])).1.decryption_shares.size =
      ((stateA.set [] []).insert_first_round 3
        ([(0, 0)], [0])).1.decryption_shares_proofs.size :=
  reachable_shares_proofs_len_eq _
    (SignState.Reachable.insert _ 3 _
      (SignState.Reachable.set _ [] []
        (SignState.Reachable.new 0 0 1 {1, 2} sid0 stateA (by decide))))

/-! ## C8 -/

/-- C8: `insert_first_round` calls from distinct party ids commute (the same
`SignState` results in either order), and a repeated insert for the same
party id replaces the prior entry (last-write-wins). -/
theorem insert_first_round_comm_and_lww (s : SignState) (p q : PartyID)
    (mp mq mp2 : List DecryptionShare × List PartialDecryptionProof)
    (hpq : p ≠ q) :
    ((s.insert_first_round p mp).1.insert_first_round q mq).1 =
      ((s.insert_first_round q mq).1.insert_first_round p mp).1 ∧
    ((s.insert_first_round p mp).1.insert_first_round p mp2).1 =
      (s.insert_first_round p mp2).1 := by
  constructor
  · have h1 : (s.decryption_shares.insert p mp.1).insert q mq.1 =
        (s.decryption_shares.insert q mq.1).insert p mp.1 :=
      Finmap.insert_insert_of_ne _ hpq
    have h2 : (s.decryption_shares_proofs.insert p mp.2).insert q mq.2 =
        (s.decryption_shares_proofs.insert q mq.2).insert p mp.2 :=
      Finmap.insert_insert_of_ne _ hpq
    simp [SignState.insert_first_round, h1, h2]
  · simp [SignState.insert_first_round, Finmap.insert_insert]

/-- C8 witness: commutation and last-write-wins evaluated at parties 1 and 2
on the concrete state `stateA`. -/
theorem insert_first_round_comm_and_lww_witness :
    ((stateA.insert_first_round 1 ([(0, 0)], [0])).1.insert_first_round 2
        ([(1, 1)], [1])).1 =
      ((stateA.insert_first_round 2 ([(1, 1)], [1])).1.insert_first_round 1
        ([(0, 0)], [0])).1 ∧
    ((stateA.insert_first_round 1 ([(0, 0)], [0])).1.insert_first_round 1
        ([(2, 2)], [2])).1 =
      (stateA.insert_first_round 1 ([(2, 2)], [2])).1 :=
  insert_first_round_comm_and_lww stateA 1 2 ([(0, 0)], [0]) ([(1, 1)], [1]) ([(2, 2)], [2])
    (by decide)

/-! ## C9 -/

/-- C9: `insert_first_round` accepts and records a contribution for any party
id with no membership check (it returns `Ok(())` and stores the entry
unconditionally), and `ready_for_complete_first_round` compares only map
sizes against the party-set size: from the state `new` builds for party 1
(the aggregator of `{1, 2}`), contributions from party 1 and from the
outsider party 3 make readiness true although member 2 never contributed. -/
theorem insert_unchecked_ready_without_member :
    (∀ (s : SignState) (pid : PartyID)
        (msg : List DecryptionShare × List PartialDecryptionProof),
        (s.insert_first_round pid msg).2 = Except.ok () ∧
        (s.insert_first_round pid msg).1.decryption_shares.lookup pid = Option.some msg.1 ∧
        (s.insert_first_round pid msg).1.decryption_shares_proofs.lookup pid =
          Option.some msg.2) ∧
    ((stateA.insert_first_round 1 ([(0, 0)], [0])).1.insert_first_round 3
        ([(1, 1)], [1])).1.ready_for_complete_first_round
      (SignRound.firstRound [] []) = true ∧
    decide ((3 : PartyID) ∈ stateA.parties) = false ∧
    decide ((2 : PartyID) ∈ stateA.parties) = true ∧
    ((stateA.insert_first_round 1 ([(0, 0)], [0])).1.insert_first_round 3
        ([(1, 1)], [1])).1.decryption_shares.lookup 2 = Option.none := by
  refine ⟨?_, by decide, by decide, by decide, by decide⟩
  intro s pid msg
  refine ⟨rfl, ?_, ?_⟩ <;> simp [SignState.insert_first_round, Finmap.lookup_insert]

/-! ## C4 and C6: collection lemmas and the spec-modelled provider -/

/-- A successful collect has as many payloads as items. -/
theorem collectResults_ok_length {X E : Type} {l : List (Except E X)} {ys : List X}
    (h : collectResults l = Except.ok ys) : ys.length = l.length := by
  induction l generalizing ys with
  | nil =>
      unfold collectResults at h
      injection h with h2
      subst h2
      rfl
  | cons x xs ih =>
      cases x with
      | error e => exact Except.noConfusion h
      | ok v =>
          unfold collectResults at h
          split at h
          · rename_i zs hc
            injection h with h2
            subst h2
            simpa using ih hc
          · exact Except.noConfusion h

/-- A successful collect is positional: the i-th item succeeded with the i-th
payload. -/
theorem collectResults_ok_get {X E : Type} {l : List (Except E X)} {ys : List X}
    (h : collectResults l = Except.ok ys) (i : Nat) (hi : i < l.length)
    (hy : i < ys.length) : l[i] = Except.ok (ys[i]) := by
  induction l generalizing ys i with
  | nil => exact absurd hi (by simp)
  | cons x xs ih =>
      cases x with
      | error e => exact Except.noConfusion h
      | ok v =>
          unfold collectResults at h
          split at h
          · rename_i zs hc
            injection h with h2
            subst h2
            cases i with
            | zero => rfl
            | succ n =>
                exact ih hc n (Nat.lt_of_succ_lt_succ hi) (Nat.lt_of_succ_lt_succ hy)
          · exact Except.noConfusion h

/-- Collecting a map of a function that always succeeds succeeds with the map
of the payloads. -/
theorem collectResults_map_ok {X Y E : Type} (f : X → Except E Y) (g : X → Y)
    (hf : ∀ x, f x = Except.ok (g x)) (l : List X) :
    collectResults (l.map f) = Except.ok (l.map g) := by
  induction l with
  | nil => rfl
  | cons x xs ih => simp [collectResults, hf x, ih]

/-- Inversion of one successful per-message step: both provider calls
succeeded with the payload's two components. -/
theorem signStepItem_ok {P : Provider} {hash : Hash}
    {x : (List Nat × (SignDecryptionParty × SignProofParty)) ×
      PublicNonceEncryptedPartialSignatureAndProof}
    {y : (DecryptionShare × SignatureThresholdDecryptionParty) ×
      (PartialDecryptionProof × SignaturePartialDecryptionProofVerificationParty)}
    (h : signStepItem P hash x = Except.ok y) :
    P.partially_decrypt_encrypted_signature_parts_prehash x.1.2.1
      (P.message_digest x.1.1 hash) x.2 = Except.ok y.1 ∧
    P.prove_correct_signature_partial_decryption x.1.2.2 = Except.ok y.2 := by
  simp only [signStepItem] at h
  split at h
  · rename_i a b ha hb
    injection h with h2
    subst h2
    exact ⟨ha, hb⟩
  · exact Except.noConfusion h
  · exact Except.noConfusion h

/-- Modelled from the spec: the protocol-library collaborator (crate
`signature_mpc::twopc_mpc_protocols`), which is not among the files under
verification.  Per the spec, `initiate_decentralized_party_sign`
"initializes one decryption-party and one proof-party per message ...
seeded with this party's key share, the DKG output, and the presignature
batch" — one actor pair per presignature entry — and round initiation
"fails if presign/message/proof-batch lengths are inconsistent", which for
this function can only mean the two batches it receives (it is not passed
the messages): it rejects a presignature/proof-artifact length mismatch.
The remaining calls are modelled as total concrete functions so that
concrete runs evaluate. -/
def specProvider : Provider :=
  { initiate_decentralized_party_sign := fun _ _ _ _ _ presigns pneps =>
      if presigns.length = pneps.length then
        Except.ok (presigns.map (fun p => (p, p + 1)))
      else
        Except.error 0
    message_digest := fun m h => m.foldl (fun a b => a * 256 + b) h
    partially_decrypt_encrypted_signature_parts_prehash := fun dp m art =>
      Except.ok ((dp + m, art), dp)
    prove_correct_signature_partial_decryption := fun pp2 =>
      Except.ok (pp2, pp2 + 1)
    decrypt_signature_decentralized_party_sign := fun msgs _ _ _ _ _ _ =>
      Except.ok msgs }

/-- The observable outcome of a `SignRound::new` call: `none` for a failure,
otherwise whether the round is `FirstRound` and the two output lengths. -/
def newOutcome
    (r : Except TwopcError (SignRound × (List DecryptionShare × List PartialDecryptionProof))) :
    Option (Bool × Nat × Nat) :=
  match r with
  | Except.ok (round, (shares, proofs)) =>
      Option.some (round.isFirstRound, shares.length, proofs.length)
  | Except.error _ => Option.none

/-- C4 counterexample: a message batch of length 2 against a presignature
batch of length 1 (artifact batch also length 1) does NOT fail: the call
succeeds, produces a `FirstRound`, and silently truncates to one share —
refuting "fails with a protocol error before any FirstRound state is
produced; it never silently truncates". -/
theorem new_message_mismatch_not_error_cex :
    SignRound.new specProvider 0 0 0 1 {1} sid0 [[1], [2]] 0 [9] [7] 0 =
      Except.ok (SignRound.firstRound [7] [9], ([(8, 9)], [8])) ∧
    ([[1], [2]] : List (List Nat)).length = 2 ∧
    ([7] : List DecentralizedPartyPresign).length = 1 :=
  ⟨rfl, rfl, rfl⟩

/-- C4 amended: a presignature/proof-artifact batch length mismatch fails
(by provider rejection) with a protocol error before any FirstRound state is
produced; but an inconsistent message-batch length is NOT detected: when the
provider initiation succeeds, the call succeeds and silently truncates the
round-1 outputs to the shortest of the three zipped sequences. -/
theorem new_length_mismatch_amended
    (tpp : DecryptionPublicParameters) (key : SecretKeyShareSizedNumber) (e : EpochId)
    (pid : PartyID) (parties : Finset PartyID) (sid : SignatureMPCSessionID)
    (messages : List (List Nat)) (dkg : DKGDecentralizedPartyOutput)
    (pneps : List PublicNonceEncryptedPartialSignatureAndProof)
    (presigns : List DecentralizedPartyPresign) (hash : Hash) :
    (presigns.length ≠ pneps.length →
      SignRound.new specProvider tpp key e pid parties sid messages dkg pneps presigns hash =
        Except.error 0) ∧
    (presigns.length = pneps.length →
      newOutcome
          (SignRound.new specProvider tpp key e pid parties sid messages dkg pneps
            presigns hash) =
        Option.some (true, min (min messages.length presigns.length) pneps.length,
          min (min messages.length presigns.length) pneps.length)) := by
  constructor
  · intro hne
    simp [SignRound.new, specProvider, hne]
  · intro heq
    have hinit : specProvider.initiate_decentralized_party_sign key tpp pid parties dkg
        presigns pneps = Except.ok (presigns.map (fun p => (p, p + 1))) := by
      simp [specProvider, heq]
    have hcoll := collectResults_map_ok (signStepItem specProvider hash)
      (fun x => (((x.1.2.1 + specProvider.message_digest x.1.1 hash, x.2), x.1.2.1),
        (x.1.2.2, x.1.2.2 + 1)))
      (fun x => rfl)
      ((messages.zip (presigns.map (fun p => (p, p + 1)))).zip pneps)
    simp [SignRound.new, hinit, hcoll, newOutcome, SignRound.isFirstRound,
      List.length_zip]

/-- C6 counterexample: a successful call with a batch of 3 messages whose
`(shares, proofs)` output has length 1, not 3 (the presignature-derived actor
list and the artifact batch have length 1, and the zip truncates) — refuting
"for every successful call with a batch of k messages the returned vectors
have length k". -/
theorem new_success_not_k_outputs_cex :
    SignRound.new specProvider 0 0 0 1 {1} sid0 [[1], [2], [3]] 0 [5] [4] 0 =
      Except.ok (SignRound.firstRound [4] [6], ([(5, 5)], [5])) ∧
    ([[1], [2], [3]] : List (List Nat)).length = 3 ∧
    ([(5, 5)] : List DecryptionShare).length = 1 :=
  ⟨rfl, rfl, rfl⟩

/-- Positional pairing of the round-1 outputs with the inputs: the i-th
share is the provider's partial decryption of the i-th message's digest
against the i-th artifact by the i-th decryption actor, and the i-th proof
comes from the i-th proof actor. -/
def PositionallyPaired (P : Provider) (hash : Hash)
    (pm : List (SignDecryptionParty × SignProofParty)) (messages : List (List Nat))
    (pneps : List PublicNonceEncryptedPartialSignatureAndProof)
    (shares : List DecryptionShare) (proofs : List PartialDecryptionProof) : Prop :=
  ∀ (i : Nat) (hm : i < messages.length) (hp : i < pm.length) (ha : i < pneps.length)
    (hs : i < shares.length) (hq : i < proofs.length),
    (∃ tp, P.partially_decrypt_encrypted_signature_parts_prehash (pm[i]).1
        (P.message_digest (messages[i]) hash) (pneps[i]) = Except.ok (shares[i], tp)) ∧
    (∃ vp, P.prove_correct_signature_partial_decryption (pm[i]).2 =
      Except.ok (proofs[i], vp))

/-- C6 amended: for every successful `SignRound::new` call in which the
provider returned one actor pair per message and the artifact batch has one
entry per message, the `(shares, proofs)` output has one entry per message
and is positionally paired with the message list; with inconsistent input
lengths the output length is the shortest of the zipped sequences instead
(see the counterexample). -/
theorem new_output_lengths_and_pairing (P : Provider)
    (tpp : DecryptionPublicParameters) (key : SecretKeyShareSizedNumber) (e : EpochId)
    (pid : PartyID) (parties : Finset PartyID) (sid : SignatureMPCSessionID)
    (messages : List (List Nat)) (dkg : DKGDecentralizedPartyOutput)
    (pneps : List PublicNonceEncryptedPartialSignatureAndProof)
    (presigns : List DecentralizedPartyPresign) (hash : Hash)
    (pm : List (SignDecryptionParty × SignProofParty)) (r : SignRound)
    (shares : List DecryptionShare) (proofs : List PartialDecryptionProof)
    (hinit : P.initiate_decentralized_party_sign key tpp pid parties dkg presigns pneps =
      Except.ok pm)
    (hnew : SignRound.new P tpp key e pid parties sid messages dkg pneps presigns hash =
      Except.ok (r, (shares, proofs)))
    (hl1 : pm.length = messages.length) (hl2 : pneps.length = messages.length) :
    shares.length = messages.length ∧ proofs.length = messages.length ∧
    PositionallyPaired P hash pm messages pneps shares proofs := by
  simp only [SignRound.new, hinit] at hnew
  split at hnew
  · exact Except.noConfusion hnew
  · rename_i results heq
    injection hnew with h2
    injection h2 with hr hsp
    injection hsp with hsh hpr
    subst hsh
    subst hpr
    have hzl : ((messages.zip pm).zip pneps).length = messages.length := by
      simp [List.length_zip, hl1, hl2]
    have hres : results.length = messages.length := by
      have hx := collectResults_ok_length heq
      simpa [hzl] using hx
    refine ⟨by simp [hres], by simp [hres], ?_⟩
    intro i hm hp ha hs hq
    have hiz : i < ((messages.zip pm).zip pneps).length := by
      rw [hzl]
      exact hm
    have hizm : i < (((messages.zip pm).zip pneps).map (signStepItem P hash)).length := by
      simpa using hiz
    have hir : i < results.length := by
      rw [hres]
      exact hm
    have hget := collectResults_ok_get heq i hizm hir
    rw [List.getElem_map] at hget
    have hx : ((messages.zip pm).zip pneps)[i] = ((messages[i], pm[i]), pneps[i]) := by
      simp [List.getElem_zip]
    rw [hx] at hget
    have hstep := signStepItem_ok hget
    constructor
    · exact ⟨(results[i]).1.2, by simpa [List.getElem_map] using hstep.1⟩
    · exact ⟨(results[i]).2.2, by simpa [List.getElem_map] using hstep.2⟩

/-- C6 witness: the amended statement evaluated on a concrete 2-message run
with the spec-modelled provider. -/
theorem new_output_lengths_and_pairing_witness :
    ([(5, 8), (8, 9)] : List DecryptionShare).length = ([[1], [2]] : List (List Nat)).length ∧
    ([5, 7] : List PartialDecryptionProof).length = ([[1], [2]] : List (List Nat)).length ∧
    PositionallyPaired specProvider 0 [(4, 5), (6, 7)] [[1], [2]] [8, 9]
      [(5, 8), (8, 9)] [5, 7] :=
  new_output_lengths_and_pairing specProvider 0 0 0 1 {1} sid0 [[1], [2]] 0 [8, 9] [4, 6] 0
    [(4, 5), (6, 7)] (SignRound.firstRound [4, 6] [6, 8]) [(5, 8), (8, 9)] [5, 7]
    rfl rfl rfl rfl
